import Mathlib

/-!
# Verification of the client-side task state engine of `zeeshanclara/todo`

This file shallowly embeds the core client-side task state engine found in
`src/app/page.tsx` (the persisted, undo-capable page variant, which the spec
identifies as "the core"): the task record, the undo-log action records, the
mutating operations `addTask`, `toggleComplete`, `deleteTask`,
`updateTaskTitle`, `undo`, `handleReorder`, and the derived views
`activeTasks` / `completedTasks`.

Modelling conventions:
* `Date.now()` and the freshly generated `id()` are inputs of each operation
  (`now : Nat`, `freshId : String`), since the source reads them at call time.
* The remote collection returned by the `useQuery` snapshot is modelled as a
  `List Task`; the component state variable `undoStack` as a `List Action`.
* The Sync Adapter's `transact` calls are modelled from the spec's §6 boundary
  description ("ordered sequence of field-level upserts/deletes"):
  `update` on a present id merges fields into that record in place, `update`
  of a full record on an absent id creates it (appended to the snapshot),
  `delete` removes the record with that id.
* JavaScript's `String.prototype.trim` is modelled by `jsTrim` (drop leading
  and trailing whitespace), and the stable `Array.prototype.sort` by
  `List.insertionSort` (a stable sort).
-/

set_option maxHeartbeats 1000000

namespace TodoApp

/-- The task record, from the `Task` interface of `src/app/page.tsx`
(persisted variant): `id`, `title`, `isCompleted`, `sortOrder`,
`createdAt`, `updatedAt` (timestamps as numbers from `Date.now()`). -/
structure Task where
  id : String
  title : String
  isCompleted : Bool
  sortOrder : Nat
  createdAt : Nat
  updatedAt : Nat
deriving Repr, DecidableEq

/-- The undo-log entry, from the `Action` union type of `src/app/page.tsx`:
`ADD_TASK`, `DELETE_TASK` (with the removed task and its index),
`TOGGLE_COMPLETE` (with the previous flag), `UPDATE_TASK` (with old and new
title). -/
inductive Action where
  | addTask (task : Task)
  | deleteTask (task : Task) (index : Nat)
  | toggleComplete (taskId : String) (wasCompleted : Bool)
  | updateTask (taskId : String) (oldTitle newTitle : String)
deriving Repr, DecidableEq

/-- The component state the claims are about: the task collection snapshot
(`tasks`) and the undo stack (`undoStack`). -/
structure AppState where
  tasks : List Task
  undoStack : List Action
deriving Repr, DecidableEq

/-- JavaScript's `String.prototype.trim`: remove leading and trailing
whitespace. -/
def jsTrim (str : String) : String :=
  ⟨((str.data.dropWhile Char.isWhitespace).reverse.dropWhile
      Char.isWhitespace).reverse⟩

/-- `tasks.find(t => t.id === taskId)`. -/
def getById (tasks : List Task) (taskId : String) : Option Task :=
  tasks.find? (fun t => t.id == taskId)

/-- Modelled from the spec: §6 `transact` applies field-level upserts; a
`db.tx.tasks[taskId].update({fields})` on an id present in the snapshot merges
the given fields into that record in place. -/
def updateTaskFields (tasks : List Task) (taskId : String) (f : Task → Task) : List Task :=
  tasks.map (fun t => if t.id == taskId then f t else t)

/-- Modelled from the spec: §6 `transact` applies field-level upserts; a
`db.tx.tasks[t.id].update(t)` with a full record replaces the record with that
id when present and creates (appends) it when absent. -/
def upsertTask (tasks : List Task) (t : Task) : List Task :=
  if tasks.any (fun u => u.id == t.id) then
    tasks.map (fun u => if u.id == t.id then t else u)
  else
    tasks ++ [t]

/-- Modelled from the spec: §6 `transact` deletes; `db.tx.tasks[taskId].delete()`
removes the record with that id. -/
def removeTask (tasks : List Task) (taskId : String) : List Task :=
  tasks.filter (fun t => !(t.id == taskId))

/-- `addTask` from `src/app/page.tsx` (persisted variant, lines 550-567):
if `newTaskTitle.trim()` is truthy, build the new task with fresh id, verbatim
title, `isCompleted: false`, `sortOrder: tasks.length`, both timestamps `now`,
transact a full-record update, and push `ADD_TASK` onto the undo stack. -/
def addTask (now : Nat) (freshId : String) (newTaskTitle : String) (s : AppState) : AppState :=
  if jsTrim newTaskTitle = "" then s
  else
    let newTask : Task :=
      { id := freshId, title := newTaskTitle, isCompleted := false,
        sortOrder := s.tasks.length, createdAt := now, updatedAt := now }
    { tasks := upsertTask s.tasks newTask,
      undoStack := s.undoStack ++ [Action.addTask newTask] }

/-- `toggleComplete` from `src/app/page.tsx` (persisted variant, lines
570-586): no-op if the id is unknown; otherwise push `TOGGLE_COMPLETE` with
the previous flag and transact `{isCompleted: !task.isCompleted, updatedAt: now}`. -/
def toggleComplete (now : Nat) (taskId : String) (s : AppState) : AppState :=
  match getById s.tasks taskId with
  | none => s
  | some task =>
      { tasks := updateTaskFields s.tasks taskId
          (fun t => { t with isCompleted := !task.isCompleted, updatedAt := now }),
        undoStack := s.undoStack ++ [Action.toggleComplete taskId task.isCompleted] }

/-- `deleteTask` from `src/app/page.tsx` (persisted variant, lines 589-596):
no-op if the id is unknown; otherwise push `DELETE_TASK` with the task's value
and its `findIndex` position, and transact a delete of the id. -/
def deleteTask (taskId : String) (s : AppState) : AppState :=
  match getById s.tasks taskId with
  | none => s
  | some task =>
      { tasks := removeTask s.tasks taskId,
        undoStack := s.undoStack ++
          [Action.deleteTask task (s.tasks.findIdx (fun t => t.id == taskId))] }

/-- `updateTaskTitle` from `src/app/page.tsx` (persisted variant, lines
599-621): no-op if the id is unknown; if the new title is trim-nonempty and
differs from the current title, push `UPDATE_TASK` and transact
`{title: newTitle, updatedAt: now}`; else if the new title is trim-empty,
delegate to `deleteTask`; otherwise do nothing. -/
def updateTaskTitle (now : Nat) (taskId newTitle : String) (s : AppState) : AppState :=
  match getById s.tasks taskId with
  | none => s
  | some task =>
      if jsTrim newTitle ≠ "" ∧ newTitle ≠ task.title then
        { tasks := updateTaskFields s.tasks taskId
            (fun t => { t with title := newTitle, updatedAt := now }),
          undoStack := s.undoStack ++ [Action.updateTask taskId task.title newTitle] }
      else if jsTrim newTitle = "" then
        deleteTask taskId s
      else s

/-- `undo` from `src/app/page.tsx` (persisted variant, lines 485-521): no-op
on an empty stack; otherwise pop the most recent action and apply its inverse:
`ADD_TASK` → delete the added id; `DELETE_TASK` → re-upsert the saved record
with `updatedAt: now` (the saved index is not used by this variant);
`TOGGLE_COMPLETE` → set `isCompleted` back with `updatedAt: now`;
`UPDATE_TASK` → set `title` back with `updatedAt: now`. -/
def undo (now : Nat) (s : AppState) : AppState :=
  match s.undoStack.getLast? with
  | none => s
  | some lastAction =>
    let popped : List Action := s.undoStack.dropLast
    match lastAction with
    | Action.addTask task =>
        { tasks := removeTask s.tasks task.id, undoStack := popped }
    | Action.deleteTask task _index =>
        { tasks := upsertTask s.tasks { task with updatedAt := now }, undoStack := popped }
    | Action.toggleComplete taskId wasCompleted =>
        { tasks := updateTaskFields s.tasks taskId
            (fun t => { t with isCompleted := wasCompleted, updatedAt := now }),
          undoStack := popped }
    | Action.updateTask taskId oldTitle _newTitle =>
        { tasks := updateTaskFields s.tasks taskId
            (fun t => { t with title := oldTitle, updatedAt := now }),
          undoStack := popped }

/-- `handleReorder` from `src/app/page.tsx` (persisted variant, lines
641-649): transact, in submitted order, one field update per task of the new
ordering, setting `sortOrder` to its position and `updatedAt` to now.
No undo-stack push. -/
def handleReorder (now : Nat) (newOrder : List Task) (s : AppState) : AppState :=
  let reordered : List Task :=
    (newOrder.enum).foldl
      (fun ts p => updateTaskFields ts p.2.id
        (fun t => { t with sortOrder := p.1, updatedAt := now })) s.tasks
  { s with tasks := reordered }

/-- `activeTasks` from `src/app/page.tsx` (persisted variant, lines 477-479):
`tasks.filter(t => !t.isCompleted).sort((a, b) => a.sortOrder - b.sortOrder)`. -/
def activeTasks (tasks : List Task) : List Task :=
  (tasks.filter (fun t => !t.isCompleted)).insertionSort
    (fun a b => a.sortOrder ≤ b.sortOrder)

/-- `completedTasks` from `src/app/page.tsx` (persisted variant, lines
480-482): `tasks.filter(t => t.isCompleted).sort((a, b) => (b.updatedAt || 0) - (a.updatedAt || 0))`
(descending by `updatedAt`; the model's `updatedAt` is total, so `|| 0` is the
identity). -/
def completedTasks (tasks : List Task) : List Task :=
  (tasks.filter (fun t => t.isCompleted)).insertionSort
    (fun a b => b.updatedAt ≤ a.updatedAt)

/-- One user-level operation of the four mutation kinds of claim C2, carrying
the call-time `Date.now()` / fresh `id()` inputs. -/
inductive Op where
  | add (now : Nat) (freshId newTaskTitle : String)
  | del (taskId : String)
  | toggle (now : Nat) (taskId : String)
  | rename (now : Nat) (taskId newTitle : String)
deriving Repr, DecidableEq

/-- Dispatch one operation to the corresponding handler. -/
def applyOp (s : AppState) : Op → AppState
  | Op.add now freshId title => addTask now freshId title s
  | Op.del taskId => deleteTask taskId s
  | Op.toggle now taskId => toggleComplete now taskId s
  | Op.rename now taskId newTitle => updateTaskTitle now taskId newTitle s

/-- The empty initial state (`useState<Task[]>([])`, `useState<Action[]>([])`). -/
def initialState : AppState := { tasks := [], undoStack := [] }

/-- Run a sequence of operations from the empty collection. -/
def runOps (ops : List Op) : AppState := ops.foldl applyOp initialState

/-! ## Concrete states and proof-infrastructure definitions -/

/-- A one-task state used to exhibit the `updatedAt` drift of `undo`. -/
def exC1 : AppState := ⟨[⟨"a", "t", false, 0, 0, 0⟩], []⟩

/-- A state holding a single completed task, so that the number of active
tasks (0) differs from the collection size (1). -/
def exC3 : AppState := ⟨[⟨"a", "done", true, 0, 0, 0⟩], []⟩

/-- A state holding one active task `"a"`, for the rename witnesses. -/
def exC5 : AppState := ⟨[⟨"a", "x", false, 0, 0, 0⟩], []⟩

/-- A reachable scenario: add "a", add "b", complete "b", delete "a", add
"c" (which gets `sortOrder` 1 because the collection still holds completed
"b"), then un-complete "b" — now active "b" and "c" both carry `sortOrder` 1. -/
def exC10 : AppState :=
  runOps [Op.add 1 "a" "a", Op.add 2 "b" "b", Op.toggle 3 "b", Op.del "a",
    Op.add 4 "c" "c", Op.toggle 5 "b"]

/-- The list of task ids of a collection. -/
def idsOf (tasks : List Task) : List String := tasks.map Task.id

/-- The effect on one task record of a single reorder update `(index, task)`:
the transacted `update({sortOrder: index, updatedAt: now})` touches exactly
the records whose id matches. -/
def reorderStep (now : Nat) (t : Task) (p : Nat × Task) : Task :=
  if t.id == p.2.id then { t with sortOrder := p.1, updatedAt := now } else t

/-- Position of the first occurrence of a string in a list. -/
def idxOfId (L : List String) (a : String) : Nat := L.findIdx (fun x => x == a)

instance : IsTotal Task (fun a b => a.sortOrder ≤ b.sortOrder) :=
  ⟨fun a b => Nat.le_total a.sortOrder b.sortOrder⟩

instance : IsTrans Task (fun a b => a.sortOrder ≤ b.sortOrder) :=
  ⟨fun _ _ _ h h2 => Nat.le_trans h h2⟩

instance : IsTotal Task (fun a b => b.updatedAt ≤ a.updatedAt) :=
  ⟨fun a b => Nat.le_total b.updatedAt a.updatedAt⟩

instance : IsTrans Task (fun a b => b.updatedAt ≤ a.updatedAt) :=
  ⟨fun _ _ _ h h2 => Nat.le_trans h2 h⟩

/-- Three active tasks A, B, C with sortOrders 0, 1, 2. -/
def exC7 : AppState :=
  ⟨[⟨"A", "A", false, 0, 0, 0⟩, ⟨"B", "B", false, 1, 0, 0⟩,
    ⟨"C", "C", false, 2, 0, 0⟩], []⟩

/-- The reorder submission [C, A, B] for `exC7`. -/
def exC7order : List Task :=
  [⟨"C", "C", false, 2, 0, 0⟩, ⟨"A", "A", false, 0, 0, 0⟩, ⟨"B", "B", false, 1, 0, 0⟩]

example : (runOps [Op.add 1 "a" "Buy milk", Op.add 2 "b" "Call Sam"]).tasks =
    [⟨"a", "Buy milk", false, 0, 1, 1⟩, ⟨"b", "Call Sam", false, 1, 2, 2⟩] := by
  decide

example : activeTasks (runOps [Op.add 1 "a" "x", Op.add 2 "b" "y", Op.toggle 3 "a"]).tasks =
    [⟨"b", "y", false, 1, 2, 2⟩] := by decide

/-! ## Basic lemmas about the store primitives -/

theorem id_eq_of_getById {ts : List Task} {i : String} {t : Task}
    (h : getById ts i = some t) : t.id = i := by
  unfold getById at h
  have h2 : (t.id == i) = true := List.find?_some (p := fun (u : Task) => u.id == i) h
  exact eq_of_beq h2

theorem mem_of_getById {ts : List Task} {i : String} {t : Task}
    (h : getById ts i = some t) : t ∈ ts := by
  unfold getById at h
  exact List.mem_of_find?_eq_some h

theorem upsertTask_of_fresh (ts : List Task) (t : Task)
    (h : ∀ u ∈ ts, u.id ≠ t.id) : upsertTask ts t = ts ++ [t] := by
  have hc : ¬ (ts.any (fun u => u.id == t.id) = true) := by
    simp only [List.any_eq_true, beq_iff_eq, not_exists, not_and]
    exact h
  simp [upsertTask, hc]

theorem removeTask_of_fresh (ts : List Task) (i : String)
    (h : ∀ u ∈ ts, u.id ≠ i) : removeTask ts i = ts := by
  rw [removeTask, List.filter_eq_self]
  intro a ha
  simpa using h a ha

theorem removeTask_append (ts us : List Task) (i : String) :
    removeTask (ts ++ us) i = removeTask ts i ++ removeTask us i :=
  List.filter_append ts us

theorem mem_removeTask_ne {ts : List Task} {i : String} {u : Task}
    (h : u ∈ removeTask ts i) : u.id ≠ i := by
  have := (List.mem_filter.mp h).2
  simpa using this

theorem updateTaskFields_comp (ts : List Task) (i : String) (f g : Task → Task)
    (hf : ∀ t, (f t).id = t.id) :
    updateTaskFields (updateTaskFields ts i f) i g =
      ts.map (fun t => if t.id == i then g (f t) else t) := by
  unfold updateTaskFields
  rw [List.map_map]
  apply List.map_congr_left
  intro t _
  by_cases h : t.id = i
  · simp [Function.comp, h, hf]
  · simp [Function.comp, h]

/-- Computation of `undo` on a state whose stack ends in a known entry. -/
theorem undo_concat (now : Nat) (ts : List Task) (stack : List Action) (e : Action) :
    undo now ⟨ts, stack ++ [e]⟩ =
      (match e with
      | Action.addTask task => (⟨removeTask ts task.id, stack⟩ : AppState)
      | Action.deleteTask task _ => ⟨upsertTask ts { task with updatedAt := now }, stack⟩
      | Action.toggleComplete taskId wasCompleted =>
          ⟨updateTaskFields ts taskId
            (fun t => { t with isCompleted := wasCompleted, updatedAt := now }), stack⟩
      | Action.updateTask taskId oldTitle _ =>
          ⟨updateTaskFields ts taskId
            (fun t => { t with title := oldTitle, updatedAt := now }), stack⟩) := by
  cases e <;> simp [undo, List.getLast?_concat, List.dropLast_concat]

/-- Computation of `addTask` when the trimmed title is non-empty. -/
theorem addTask_of_trim_ne (now : Nat) (freshId title : String) (s : AppState)
    (h : jsTrim title ≠ "") :
    addTask now freshId title s =
      ⟨upsertTask s.tasks ⟨freshId, title, false, s.tasks.length, now, now⟩,
       s.undoStack ++
         [Action.addTask ⟨freshId, title, false, s.tasks.length, now, now⟩]⟩ := by
  simp [addTask, h]

/-- Computation of `deleteTask` when the id is present. -/
theorem deleteTask_of_found (taskId : String) (s : AppState) (task : Task)
    (h : getById s.tasks taskId = some task) :
    deleteTask taskId s =
      ⟨removeTask s.tasks taskId,
       s.undoStack ++
         [Action.deleteTask task (s.tasks.findIdx (fun t => t.id == taskId))]⟩ := by
  simp [deleteTask, h]

/-- Computation of `toggleComplete` when the id is present. -/
theorem toggleComplete_of_found (now : Nat) (taskId : String) (s : AppState) (task : Task)
    (h : getById s.tasks taskId = some task) :
    toggleComplete now taskId s =
      ⟨updateTaskFields s.tasks taskId
        (fun t => { t with isCompleted := !task.isCompleted, updatedAt := now }),
       s.undoStack ++ [Action.toggleComplete taskId task.isCompleted]⟩ := by
  simp [toggleComplete, h]

/-- Computation of `updateTaskTitle` when the id is present, the new title is
trim-nonempty and differs from the current title. -/
theorem updateTaskTitle_of_changed (now : Nat) (taskId newTitle : String) (s : AppState)
    (task : Task) (h : getById s.tasks taskId = some task)
    (h1 : jsTrim newTitle ≠ "") (h2 : newTitle ≠ task.title) :
    updateTaskTitle now taskId newTitle s =
      ⟨updateTaskFields s.tasks taskId
        (fun t => { t with title := newTitle, updatedAt := now }),
       s.undoStack ++ [Action.updateTask taskId task.title newTitle]⟩ := by
  simp [updateTaskTitle, h, h1, h2]

/-! ## Claim C1 -/

/-- C1, counterexample: toggling the task of `exC1` at time 1 and undoing at
time 2 consumes the log entry but does not restore the pre-mutation
collection: the task's `updatedAt` is set to the undo time 2 instead of its
original 0, so the resulting state is not observationally equivalent to the
pre-mutation state. -/
theorem claim_C1_counterexample :
    (undo 2 (toggleComplete 1 "a" exC1)).tasks ≠ exC1.tasks ∧
    (undo 2 (toggleComplete 1 "a" exC1)).tasks = [⟨"a", "t", false, 0, 0, 2⟩] ∧
    (undo 2 (toggleComplete 1 "a" exC1)).undoStack = exC1.undoStack := by
  decide

/-- C1 (amended): undo inverts each logged action's primary effect. `add` then
`undo` restores the pre-add state exactly (the added id being fresh);
`delete` then `undo` re-creates the deleted task with every field except
`updatedAt` restored, appended to the collection (its position within the
active partition is recovered through its restored `sortOrder`, not through
the recorded index, which this variant does not use); `toggleComplete` then
`undo` restores the prior `isCompleted` flag; rename then `undo` restores the
prior title. In all four cases the log entry is consumed and all other tasks
are untouched, but for delete/toggle/rename the affected task's `updatedAt`
is set to the undo time rather than restored. -/
theorem claim_C1_undo_inverse :
    (∀ (now now' : Nat) (freshId title : String) (s : AppState),
      jsTrim title ≠ "" → (∀ u ∈ s.tasks, u.id ≠ freshId) →
      undo now' (addTask now freshId title s) = s)
    ∧ (∀ (now' : Nat) (taskId : String) (s : AppState) (task : Task),
      getById s.tasks taskId = some task →
      undo now' (deleteTask taskId s) =
        ⟨removeTask s.tasks taskId ++ [{ task with updatedAt := now' }], s.undoStack⟩)
    ∧ (∀ (now now' : Nat) (taskId : String) (s : AppState) (task : Task),
      getById s.tasks taskId = some task →
      undo now' (toggleComplete now taskId s) =
        ⟨updateTaskFields s.tasks taskId
          (fun t => { t with isCompleted := task.isCompleted, updatedAt := now' }),
         s.undoStack⟩)
    ∧ (∀ (now now' : Nat) (taskId newTitle : String) (s : AppState) (task : Task),
      getById s.tasks taskId = some task →
      jsTrim newTitle ≠ "" → newTitle ≠ task.title →
      undo now' (updateTaskTitle now taskId newTitle s) =
        ⟨updateTaskFields s.tasks taskId
          (fun t => { t with title := task.title, updatedAt := now' }),
         s.undoStack⟩) := by
  refine ⟨?_, ?_, ?_, ?_⟩
  · intro now now' freshId title s h hfresh
    rw [addTask_of_trim_ne now freshId title s h]
    rw [upsertTask_of_fresh s.tasks _ hfresh]
    rw [undo_concat]
    show (⟨removeTask (s.tasks ++ [_]) freshId, s.undoStack⟩ : AppState) = s
    rw [removeTask_append, removeTask_of_fresh s.tasks freshId hfresh]
    simp [removeTask]
  · intro now' taskId s task h
    rw [deleteTask_of_found taskId s task h]
    rw [undo_concat]
    show (⟨upsertTask (removeTask s.tasks taskId) { task with updatedAt := now' },
      s.undoStack⟩ : AppState) = _
    rw [upsertTask_of_fresh]
    intro u hu
    have : u.id ≠ taskId := mem_removeTask_ne hu
    simpa [id_eq_of_getById h] using this
  · intro now now' taskId s task h
    rw [toggleComplete_of_found now taskId s task h]
    rw [undo_concat]
    show (⟨updateTaskFields (updateTaskFields s.tasks taskId _) taskId _,
      s.undoStack⟩ : AppState) = _
    rw [updateTaskFields_comp]
    · rfl
    · intro t
      rfl
  · intro now now' taskId newTitle s task h h1 h2
    rw [updateTaskTitle_of_changed now taskId newTitle s task h h1 h2]
    rw [undo_concat]
    show (⟨updateTaskFields (updateTaskFields s.tasks taskId _) taskId _,
      s.undoStack⟩ : AppState) = _
    rw [updateTaskFields_comp]
    · rfl
    · intro t
      rfl

/-- C1, witness: the add-then-undo branch applied at a concrete input. -/
theorem claim_C1_witness :
    undo 9 (addTask 5 "f" "hello" (⟨[], []⟩ : AppState)) = (⟨[], []⟩ : AppState) :=
  claim_C1_undo_inverse.1 5 9 "f" "hello" ⟨[], []⟩ (by decide) (by decide)

/-! ## Claim C3 -/

/-- C3, counterexample: adding to a collection whose only task is completed
creates the new task with `sortOrder` 1 (the collection size), not 0 (the
number of active tasks), refuting the claimed `sortOrder = count(active)`. -/
theorem claim_C3_counterexample :
    ¬ ((getById (addTask 5 "f" "b" exC3).tasks "f").map Task.sortOrder =
        some (activeTasks exC3.tasks).length) ∧
    (getById (addTask 5 "f" "b" exC3).tasks "f").map Task.sortOrder = some 1 ∧
    (activeTasks exC3.tasks).length = 0 := by
  decide

/-- C3 (amended): for every state and every title whose trimmed form is
non-empty, `add(title)` creates a task with the given fresh id,
`isCompleted = false`, `sortOrder` equal to the size of the full collection
(active and completed together, not the number of active tasks), and both
timestamps set to now; appends it to the collection; and pushes an `ADD_TASK`
record onto the undo log. -/
theorem claim_C3_add_semantics (now : Nat) (freshId title : String) (s : AppState)
    (h : jsTrim title ≠ "") (hfresh : ∀ u ∈ s.tasks, u.id ≠ freshId) :
    addTask now freshId title s =
      ⟨s.tasks ++ [⟨freshId, title, false, s.tasks.length, now, now⟩],
       s.undoStack ++
         [Action.addTask ⟨freshId, title, false, s.tasks.length, now, now⟩]⟩ := by
  rw [addTask_of_trim_ne now freshId title s h, upsertTask_of_fresh s.tasks _ hfresh]

/-- C3, witness: the amended add semantics applied at a concrete input. -/
theorem claim_C3_witness :
    addTask 4 "f" "x" exC3 =
      ⟨[⟨"a", "done", true, 0, 0, 0⟩, ⟨"f", "x", false, 1, 4, 4⟩],
       [Action.addTask ⟨"f", "x", false, 1, 4, 4⟩]⟩ :=
  claim_C3_add_semantics 4 "f" "x" exC3 (by decide) (by decide)

/-! ## Claim C5 -/

/-- C5: renaming with a known id. A trim-empty new title delegates to
`deleteTask` (so it is observationally identical to a delete, with the
delete's `DELETE_TASK` entry and no `UPDATE_TASK` entry); a trim-nonempty
title differing from the current one updates the title, refreshes
`updatedAt`, and pushes an `UPDATE_TASK` record; a title equal to the current
one mutates nothing and pushes nothing. -/
theorem claim_C5_rename_semantics (now : Nat) (taskId newTitle : String) (s : AppState)
    (task : Task) (h : getById s.tasks taskId = some task) :
    (jsTrim newTitle = "" → updateTaskTitle now taskId newTitle s = deleteTask taskId s)
    ∧ (jsTrim newTitle ≠ "" → newTitle ≠ task.title →
        updateTaskTitle now taskId newTitle s =
          ⟨updateTaskFields s.tasks taskId
            (fun t => { t with title := newTitle, updatedAt := now }),
           s.undoStack ++ [Action.updateTask taskId task.title newTitle]⟩)
    ∧ (jsTrim newTitle ≠ "" → newTitle = task.title →
        updateTaskTitle now taskId newTitle s = s) := by
  refine ⟨?_, ?_, ?_⟩
  · intro he
    simp [updateTaskTitle, h, he]
  · intro h1 h2
    exact updateTaskTitle_of_changed now taskId newTitle s task h h1 h2
  · intro h1 h2
    subst h2
    simp [updateTaskTitle, h, h1]

/-- C5, witness: renaming to a blank string is the same transition as
deleting, at a concrete input. -/
theorem claim_C5_witness :
    updateTaskTitle 7 "a" " " exC5 = deleteTask "a" exC5 :=
  (claim_C5_rename_semantics 7 "a" " " exC5 ⟨"a", "x", false, 0, 0, 0⟩ (by decide)).1
    (by decide)

/-! ## Claim C9 -/

/-- C9: the stored title of a freshly added task is the submitted string
verbatim, untrimmed; trimming is applied only to the emptiness check. -/
theorem claim_C9_title_verbatim (now : Nat) (freshId title : String) (s : AppState)
    (h : jsTrim title ≠ "") (hfresh : ∀ u ∈ s.tasks, u.id ≠ freshId) :
    (addTask now freshId title s).tasks =
      s.tasks ++ [⟨freshId, title, false, s.tasks.length, now, now⟩] := by
  rw [addTask_of_trim_ne now freshId title s h, upsertTask_of_fresh s.tasks _ hfresh]

/-- C9, witness: a title with surrounding whitespace is persisted verbatim,
not in its (distinct) trimmed form. -/
theorem claim_C9_witness :
    (addTask 3 "f" " hi " (⟨[], []⟩ : AppState)).tasks =
      [⟨"f", " hi ", false, 0, 3, 3⟩] ∧ jsTrim " hi " = "hi" :=
  ⟨claim_C9_title_verbatim 3 "f" " hi " ⟨[], []⟩ (by decide) (by decide), by decide⟩

/-! ## Claim C6 -/

/-- C6, counterexample: renaming the known task `"a"` of `exC5` to a blank
title is not a silent no-op — it empties the task collection and pushes a
`DELETE_TASK` entry onto the undo log, because `updateTaskTitle` delegates a
trim-empty title on a known id to `deleteTask`. -/
theorem claim_C6_counterexample :
    updateTaskTitle 7 "a" " " exC5 ≠ exC5 ∧
    (updateTaskTitle 7 "a" " " exC5).tasks = [] ∧
    (updateTaskTitle 7 "a" " " exC5).undoStack =
      [Action.deleteTask ⟨"a", "x", false, 0, 0, 0⟩ 0] := by
  decide

/-- C6 (amended): every remaining validation miss — add with a trim-empty
title, any by-id operation (toggle, delete, rename) on an unknown id, undo on
an empty log — is a silent no-op leaving the whole state (tasks and undo log)
unchanged. Rename with a trim-empty title on a known id is not a no-op: it
takes exactly the `deleteTask` transition, removing the task and pushing that
delete's single `DELETE_TASK` entry. Dually, each of the four logged
operations either leaves the state unchanged or appends exactly one entry to
the undo log, and `undo` only ever pops the topmost entry. -/
theorem claim_C6_validation_noops :
    (∀ (now : Nat) (freshId title : String) (s : AppState),
      jsTrim title = "" → addTask now freshId title s = s)
    ∧ (∀ (now : Nat) (taskId : String) (s : AppState),
      getById s.tasks taskId = none → toggleComplete now taskId s = s)
    ∧ (∀ (taskId : String) (s : AppState),
      getById s.tasks taskId = none → deleteTask taskId s = s)
    ∧ (∀ (now : Nat) (taskId newTitle : String) (s : AppState),
      getById s.tasks taskId = none → updateTaskTitle now taskId newTitle s = s)
    ∧ (∀ (now : Nat) (s : AppState), s.undoStack = [] → undo now s = s)
    ∧ (∀ (now : Nat) (freshId title : String) (s : AppState),
      addTask now freshId title s = s ∨
        ∃ e, (addTask now freshId title s).undoStack = s.undoStack ++ [e])
    ∧ (∀ (now : Nat) (taskId : String) (s : AppState),
      toggleComplete now taskId s = s ∨
        ∃ e, (toggleComplete now taskId s).undoStack = s.undoStack ++ [e])
    ∧ (∀ (taskId : String) (s : AppState),
      deleteTask taskId s = s ∨
        ∃ e, (deleteTask taskId s).undoStack = s.undoStack ++ [e])
    ∧ (∀ (now : Nat) (taskId newTitle : String) (s : AppState),
      updateTaskTitle now taskId newTitle s = s ∨
        ∃ e, (updateTaskTitle now taskId newTitle s).undoStack = s.undoStack ++ [e])
    ∧ (∀ (now : Nat) (s : AppState),
      (undo now s).undoStack = s.undoStack.dropLast)
    ∧ (∀ (now : Nat) (taskId newTitle : String) (s : AppState) (task : Task),
      getById s.tasks taskId = some task → jsTrim newTitle = "" →
      updateTaskTitle now taskId newTitle s = deleteTask taskId s) := by
  refine ⟨?_, ?_, ?_, ?_, ?_, ?_, ?_, ?_, ?_, ?_, ?_⟩
  · intro now freshId title s h
    simp [addTask, h]
  · intro now taskId s h
    simp [toggleComplete, h]
  · intro taskId s h
    simp [deleteTask, h]
  · intro now taskId newTitle s h
    simp [updateTaskTitle, h]
  · intro now s h
    simp [undo, h]
  · intro now freshId title s
    by_cases h : jsTrim title = ""
    · exact Or.inl (by simp [addTask, h])
    · exact Or.inr ⟨Action.addTask
        ⟨freshId, title, false, s.tasks.length, now, now⟩, by simp [addTask, h]⟩
  · intro now taskId s
    cases hg : getById s.tasks taskId with
    | none => exact Or.inl (by simp [toggleComplete, hg])
    | some task =>
        exact Or.inr ⟨Action.toggleComplete taskId task.isCompleted,
          by simp [toggleComplete, hg]⟩
  · intro taskId s
    cases hg : getById s.tasks taskId with
    | none => exact Or.inl (by simp [deleteTask, hg])
    | some task =>
        exact Or.inr ⟨Action.deleteTask task
          (s.tasks.findIdx (fun t => t.id == taskId)), by simp [deleteTask, hg]⟩
  · intro now taskId newTitle s
    cases hg : getById s.tasks taskId with
    | none => exact Or.inl (by simp [updateTaskTitle, hg])
    | some task =>
        by_cases h1 : jsTrim newTitle = ""
        · refine Or.inr ⟨Action.deleteTask task
            (s.tasks.findIdx (fun t => t.id == taskId)), ?_⟩
          have hdel : updateTaskTitle now taskId newTitle s = deleteTask taskId s := by
            simp [updateTaskTitle, hg, h1]
          rw [hdel, deleteTask_of_found taskId s task hg]
        · by_cases h2 : newTitle = task.title
          · refine Or.inl ?_
            subst h2
            simp [updateTaskTitle, hg, h1]
          · exact Or.inr ⟨Action.updateTask taskId task.title newTitle,
              by simp [updateTaskTitle, hg, h1, h2]⟩
  · intro now s
    cases hL : s.undoStack.getLast? with
    | none =>
        have hnil : s.undoStack = [] := List.getLast?_eq_none_iff.mp hL
        simp [undo, hL, hnil]
    | some e => cases e <;> simp [undo, hL]
  · intro now taskId newTitle s task hg he
    simp [updateTaskTitle, hg, he]

/-- C6, witness: a no-op branch and the delete-delegation branch applied at
concrete inputs. -/
theorem claim_C6_witness :
    addTask 3 "f" "   " (⟨[], []⟩ : AppState) = (⟨[], []⟩ : AppState) ∧
    deleteTask "ghost" exC5 = exC5 ∧
    updateTaskTitle 8 "a" "  " exC5 = deleteTask "a" exC5 :=
  ⟨claim_C6_validation_noops.1 3 "f" "   " ⟨[], []⟩ (by decide),
   claim_C6_validation_noops.2.2.1 "ghost" exC5 (by decide),
   claim_C6_validation_noops.2.2.2.2.2.2.2.2.2.2 8 "a" "  " exC5
     ⟨"a", "x", false, 0, 0, 0⟩ (by decide) (by decide)⟩

/-! ## Claim C10 -/

/-- C10: `toggleComplete` on a known id rewrites only the matching task, and
on it only the `isCompleted` flag and `updatedAt`; `id`, `title`, `createdAt`
and in particular `sortOrder` are untouched, and all other tasks are kept as
they are. Consequently a task that is completed and later un-completed
rejoins the active partition with its old `sortOrder`, which can collide with
another active task's `sortOrder` — as in the reachable state `exC10`. -/
theorem claim_C10_toggle_frame :
    (∀ (now : Nat) (taskId : String) (s : AppState) (task : Task),
      getById s.tasks taskId = some task →
      (toggleComplete now taskId s).tasks =
        s.tasks.map (fun t => if t.id == taskId then
          { t with isCompleted := !task.isCompleted, updatedAt := now } else t) ∧
      ∀ t ∈ s.tasks, t.id ≠ taskId → t ∈ (toggleComplete now taskId s).tasks)
    ∧ (activeTasks exC10.tasks).map Task.sortOrder = [1, 1]
    ∧ (activeTasks exC10.tasks).map Task.id = ["b", "c"] := by
  refine ⟨?_, by decide, by decide⟩
  intro now taskId s task h
  constructor
  · rw [toggleComplete_of_found now taskId s task h]
    rfl
  · intro t ht hne
    rw [toggleComplete_of_found now taskId s task h]
    show t ∈ updateTaskFields s.tasks taskId _
    unfold updateTaskFields
    refine List.mem_map.mpr ⟨t, ht, ?_⟩
    simp [hne]

/-- C10, witness: the frame property applied at a concrete input. -/
theorem claim_C10_witness :
    (toggleComplete 1 "a" exC5).tasks =
      exC5.tasks.map (fun t => if t.id == "a" then
        { t with isCompleted := !false, updatedAt := 1 } else t) :=
  (claim_C10_toggle_frame.1 1 "a" exC5 ⟨"a", "x", false, 0, 0, 0⟩ (by decide)).1

/-! ## Claim C2 -/

theorem idsOf_updateTaskFields (ts : List Task) (i : String) (f : Task → Task)
    (hf : ∀ t, (f t).id = t.id) :
    idsOf (updateTaskFields ts i f) = idsOf ts := by
  unfold idsOf updateTaskFields
  rw [List.map_map]
  apply List.map_congr_left
  intro t _
  by_cases h : t.id = i <;> simp [Function.comp, h, hf]

theorem idsOf_removeTask_sublist (ts : List Task) (i : String) :
    (idsOf (removeTask ts i)).Sublist (idsOf ts) :=
  List.Sublist.map Task.id (List.filter_sublist ts)

theorem nodup_upsertTask {ts : List Task} (t : Task)
    (h : (idsOf ts).Nodup) : (idsOf (upsertTask ts t)).Nodup := by
  unfold upsertTask
  split
  · have hids : idsOf (ts.map (fun u => if u.id == t.id then t else u)) = idsOf ts := by
      unfold idsOf
      rw [List.map_map]
      apply List.map_congr_left
      intro u _
      by_cases hu : u.id = t.id <;> simp [Function.comp, hu]
    rw [hids]
    exact h
  · next hany =>
      have hnot : t.id ∉ idsOf ts := by
        intro hmem
        apply hany
        obtain ⟨u, hu, he⟩ := List.mem_map.mp hmem
        exact List.any_eq_true.mpr ⟨u, hu, beq_iff_eq.mpr he⟩
      unfold idsOf
      rw [List.map_append]
      simp only [List.map_cons, List.map_nil]
      rw [List.nodup_append]
      refine ⟨h, List.nodup_singleton t.id, ?_⟩
      intro a ha hb
      rw [List.mem_singleton] at hb
      subst hb
      exact hnot ha

theorem nodup_addTask (now : Nat) (freshId title : String) (s : AppState)
    (h : (idsOf s.tasks).Nodup) : (idsOf (addTask now freshId title s).tasks).Nodup := by
  by_cases hc : jsTrim title = ""
  · simpa [addTask, hc] using h
  · rw [addTask_of_trim_ne now freshId title s hc]
    exact nodup_upsertTask _ h

theorem nodup_deleteTask (taskId : String) (s : AppState)
    (h : (idsOf s.tasks).Nodup) : (idsOf (deleteTask taskId s).tasks).Nodup := by
  cases hg : getById s.tasks taskId with
  | none => simpa [deleteTask, hg] using h
  | some task =>
      rw [deleteTask_of_found taskId s task hg]
      exact List.Nodup.sublist (idsOf_removeTask_sublist s.tasks taskId) h

theorem nodup_toggleComplete (now : Nat) (taskId : String) (s : AppState)
    (h : (idsOf s.tasks).Nodup) : (idsOf (toggleComplete now taskId s).tasks).Nodup := by
  cases hg : getById s.tasks taskId with
  | none => simpa [toggleComplete, hg] using h
  | some task =>
      rw [toggleComplete_of_found now taskId s task hg]
      show (idsOf (updateTaskFields s.tasks taskId _)).Nodup
      rw [idsOf_updateTaskFields]
      · exact h
      · intro t
        rfl

theorem nodup_updateTaskTitle (now : Nat) (taskId newTitle : String) (s : AppState)
    (h : (idsOf s.tasks).Nodup) : (idsOf (updateTaskTitle now taskId newTitle s).tasks).Nodup := by
  cases hg : getById s.tasks taskId with
  | none => simpa [updateTaskTitle, hg] using h
  | some task =>
      by_cases h1 : jsTrim newTitle = ""
      · have hdel : updateTaskTitle now taskId newTitle s = deleteTask taskId s := by
          simp [updateTaskTitle, hg, h1]
        rw [hdel]
        exact nodup_deleteTask taskId s h
      · by_cases h2 : newTitle = task.title
        · subst h2
          simpa [updateTaskTitle, hg, h1] using h
        · rw [updateTaskTitle_of_changed now taskId newTitle s task hg h1 h2]
          show (idsOf (updateTaskFields s.tasks taskId _)).Nodup
          rw [idsOf_updateTaskFields]
          · exact h
          · intro t
            rfl

theorem nodup_applyOp (op : Op) (s : AppState)
    (h : (idsOf s.tasks).Nodup) : (idsOf (applyOp s op).tasks).Nodup := by
  cases op with
  | add now freshId title => exact nodup_addTask now freshId title s h
  | del taskId => exact nodup_deleteTask taskId s h
  | toggle now taskId => exact nodup_toggleComplete now taskId s h
  | rename now taskId newTitle => exact nodup_updateTaskTitle now taskId newTitle s h

/-- C2: for every sequence of add / delete / toggleComplete / rename
operations starting from the empty collection, the task ids of the resulting
collection are pairwise distinct (across active and completed together). -/
theorem claim_C2_unique_ids (ops : List Op) : (idsOf (runOps ops).tasks).Nodup := by
  have hstep : ∀ (l : List Op) (s : AppState), (idsOf s.tasks).Nodup →
      (idsOf (l.foldl applyOp s).tasks).Nodup := by
    intro l
    induction l with
    | nil => exact fun s h => h
    | cons op rest ih =>
        intro s h
        exact ih (applyOp s op) (nodup_applyOp op s h)
  exact hstep ops initialState (by simp [initialState, idsOf])

/-! ## Reorder machinery -/

theorem foldl_updateTaskFields_eq_map (now : Nat) (us : List (Nat × Task)) (ts : List Task) :
    us.foldl (fun l p => updateTaskFields l p.2.id
        (fun t => { t with sortOrder := p.1, updatedAt := now })) ts
      = ts.map (fun t => us.foldl (reorderStep now) t) := by
  induction us generalizing ts with
  | nil => simp
  | cons p rest ih =>
      rw [List.foldl_cons, ih]
      unfold updateTaskFields
      rw [List.map_map]
      apply List.map_congr_left
      intro t _
      rfl

theorem handleReorder_tasks (now : Nat) (newOrder : List Task) (s : AppState) :
    (handleReorder now newOrder s).tasks =
      s.tasks.map (fun t => (newOrder.enum).foldl (reorderStep now) t) := by
  show (newOrder.enum).foldl _ s.tasks = _
  exact foldl_updateTaskFields_eq_map now newOrder.enum s.tasks

theorem reorderStep_id (now : Nat) (t : Task) (p : Nat × Task) :
    (reorderStep now t p).id = t.id := by
  unfold reorderStep
  split <;> rfl

theorem reorderStep_isCompleted (now : Nat) (t : Task) (p : Nat × Task) :
    (reorderStep now t p).isCompleted = t.isCompleted := by
  unfold reorderStep
  split <;> rfl

theorem foldl_reorderStep_id (now : Nat) (us : List (Nat × Task)) (t : Task) :
    (us.foldl (reorderStep now) t).id = t.id := by
  induction us generalizing t with
  | nil => rfl
  | cons p rest ih =>
      rw [List.foldl_cons, ih]
      exact reorderStep_id now t p

theorem foldl_reorderStep_isCompleted (now : Nat) (us : List (Nat × Task)) (t : Task) :
    (us.foldl (reorderStep now) t).isCompleted = t.isCompleted := by
  induction us generalizing t with
  | nil => rfl
  | cons p rest ih =>
      rw [List.foldl_cons, ih]
      exact reorderStep_isCompleted now t p

theorem foldl_reorderStep_miss (now : Nat) (us : List (Nat × Task)) (t : Task)
    (h : ∀ p ∈ us, t.id ≠ p.2.id) :
    us.foldl (reorderStep now) t = t := by
  induction us with
  | nil => rfl
  | cons p rest ih =>
      rw [List.foldl_cons]
      have hstep : reorderStep now t p = t := by
        unfold reorderStep
        rw [if_neg]
        simp only [beq_iff_eq]
        exact h p (List.mem_cons_self p rest)
      rw [hstep]
      exact ih fun q hq => h q (List.mem_cons_of_mem p hq)

/-- Folding the enumerated reorder updates over a task whose id sits at
position `i` of the submitted order rewrites exactly its `sortOrder` (to
`k + i`, where `k` is the enumeration offset) and `updatedAt`. -/
theorem foldl_reorderStep_enumFrom_hit (now : Nat) (newOrder : List Task) :
    ∀ (k i : Nat) (hi : i < newOrder.length) (t : Task),
      (newOrder.map Task.id).Nodup →
      t.id = (newOrder.get ⟨i, hi⟩).id →
      (List.enumFrom k newOrder).foldl (reorderStep now) t =
        { t with sortOrder := k + i, updatedAt := now } := by
  induction newOrder with
  | nil =>
      intro k i hi
      exact absurd hi (by simp)
  | cons x xs ih =>
      intro k i hi t hnd hid
      have hxnot : x.id ∉ xs.map Task.id := (List.nodup_cons.mp hnd).1
      cases i with
      | zero =>
          have hx : t.id = x.id := hid
          rw [show List.enumFrom k (x :: xs) = (k, x) :: List.enumFrom (k + 1) xs from rfl]
          rw [List.foldl_cons]
          have hstep : reorderStep now t (k, x) =
              { t with sortOrder := k, updatedAt := now } := by
            unfold reorderStep
            rw [if_pos (beq_iff_eq.mpr hx)]
          rw [hstep]
          have hmiss : ∀ p ∈ List.enumFrom (k + 1) xs,
              (({ t with sortOrder := k, updatedAt := now } : Task)).id ≠ p.2.id := by
            intro p hp he
            have hsnd : p.2 ∈ xs := by
              have hm := List.enumFrom_map_snd (k + 1) xs
              exact hm ▸ List.mem_map_of_mem Prod.snd hp
            have he' : t.id = p.2.id := he
            apply hxnot
            rw [← hx, he']
            exact List.mem_map_of_mem Task.id hsnd
          rw [foldl_reorderStep_miss now _ _ hmiss, Nat.add_zero]
      | succ j =>
          have hj : j < xs.length := Nat.lt_of_succ_lt_succ hi
          have hidj : t.id = (xs.get ⟨j, hj⟩).id := hid
          have hne : t.id ≠ x.id := by
            intro he
            apply hxnot
            rw [← he, hidj]
            exact List.mem_map_of_mem Task.id (List.get_mem xs j hj)
          rw [show List.enumFrom k (x :: xs) = (k, x) :: List.enumFrom (k + 1) xs from rfl]
          rw [List.foldl_cons]
          have hstep : reorderStep now t (k, x) = t := by
            unfold reorderStep
            rw [if_neg]
            simp only [beq_iff_eq]
            exact hne
          rw [hstep]
          rw [ih (k + 1) j hj t (List.nodup_cons.mp hnd).2 hidj]
          have harith : k + 1 + j = k + (j + 1) := by omega
          rw [harith]

/-! ## Claim C7 -/

/-- C7: reordering with a duplicate-free submitted sequence reassigns, for
each position `i`, the `sortOrder` of the task whose id sits at position `i`
of the submitted order to exactly `i` (so the values are `0..n-1` matching
the submitted order), refreshes its `updatedAt`, and pushes nothing onto the
undo log. -/
theorem claim_C7_reorder_semantics (now : Nat) (newOrder : List Task) (s : AppState)
    (i : Nat) (hi : i < newOrder.length) (task : Task)
    (hnd : (newOrder.map Task.id).Nodup)
    (hfound : getById s.tasks (newOrder.get ⟨i, hi⟩).id = some task) :
    getById (handleReorder now newOrder s).tasks (newOrder.get ⟨i, hi⟩).id =
      some { task with sortOrder := i, updatedAt := now }
    ∧ (handleReorder now newOrder s).undoStack = s.undoStack := by
  constructor
  · rw [handleReorder_tasks]
    unfold getById
    rw [List.find?_map]
    have hpred : ((fun t => t.id == (newOrder.get ⟨i, hi⟩).id) ∘
        (fun t => (newOrder.enum).foldl (reorderStep now) t)) =
        (fun t => t.id == (newOrder.get ⟨i, hi⟩).id) := by
      funext t
      simp [Function.comp, foldl_reorderStep_id]
    rw [hpred]
    show Option.map _ (getById s.tasks _) = _
    rw [hfound]
    show some ((newOrder.enum).foldl (reorderStep now) task) = _
    rw [show List.enum newOrder = List.enumFrom 0 newOrder from rfl]
    rw [foldl_reorderStep_enumFrom_hit now newOrder 0 i hi task hnd
      (id_eq_of_getById hfound)]
    rw [Nat.zero_add]
  · simp [handleReorder]

/-- C7, witness: after reordering [A, B, C] to [C, A, B], task C carries
sortOrder 0 and nothing was pushed onto the undo log. -/
theorem claim_C7_witness :
    getById (handleReorder 9 exC7order exC7).tasks "C" =
      some ⟨"C", "C", false, 0, 0, 9⟩
    ∧ (handleReorder 9 exC7order exC7).undoStack = [] :=
  claim_C7_reorder_semantics 9 exC7order exC7 0 (by decide)
    ⟨"C", "C", false, 2, 0, 0⟩ (by decide) (by decide)

/-! ## Claim C4 -/

theorem idxOfId_lt_length {L : List String} {a : String} (h : a ∈ L) :
    idxOfId L a < L.length :=
  List.findIdx_lt_length_of_exists ⟨a, h, beq_self_eq_true a⟩

theorem get_idxOfId {L : List String} {a : String} (h : a ∈ L) :
    L.get ⟨idxOfId L a, idxOfId_lt_length h⟩ = a :=
  eq_of_beq (List.findIdx_get (w := idxOfId_lt_length h))

theorem map_idxOfId_self {L : List String} (h : L.Nodup) :
    L.map (fun a => idxOfId L a) = List.range L.length := by
  induction L with
  | nil => rfl
  | cons x xs ih =>
      obtain ⟨hx, hxs⟩ := List.nodup_cons.mp h
      rw [List.map_cons]
      have h0 : idxOfId (x :: xs) x = 0 := by
        unfold idxOfId
        rw [List.findIdx_cons, beq_self_eq_true x]
        rfl
      have hrest : xs.map (fun a => idxOfId (x :: xs) a) =
          xs.map (fun a => idxOfId xs a + 1) := by
        apply List.map_congr_left
        intro a ha
        have hne : (x == a) = false := by
          simp only [beq_eq_false_iff_ne]
          intro he
          exact hx (he ▸ ha)
        unfold idxOfId
        rw [List.findIdx_cons, hne]
        rfl
      rw [h0, hrest]
      have hsucc : xs.map (fun a => idxOfId xs a + 1) =
          (xs.map (fun a => idxOfId xs a)).map Nat.succ := by
        rw [List.map_map]
        rfl
      rw [hsucc, ih hxs]
      rw [List.length_cons, List.range_succ_eq_map]

/-- C4, counterexample: after add "a", add "b", delete "a" — a settled state
immediately after a delete — the single active task still carries
`sortOrder` 1, so the active `sortOrder` values are not the contiguous
`0..n-1`; `deleteTask` never renumbers the survivors. -/
theorem claim_C4_counterexample :
    (activeTasks (runOps [Op.add 1 "a" "a", Op.add 2 "b" "b", Op.del "a"]).tasks).map
        Task.sortOrder = [1]
    ∧ [1] ≠ List.range
        (activeTasks (runOps [Op.add 1 "a" "a", Op.add 2 "b" "b", Op.del "a"]).tasks).length := by
  decide

/-- C4 (amended): immediately after a `reorder` with a duplicate-free
permutation of the active ids settles, the `sortOrder` values of the active
tasks are the contiguous `0..n-1` in list order. Neither add nor delete
re-establishes contiguity: add assigns `sortOrder` equal to the size of the
full collection and delete leaves the survivors' `sortOrder` values
untouched, so the invariant can fail after those operations. -/
theorem claim_C4_reorder_contiguity (now : Nat) (newOrder : List Task) (s : AppState)
    (hnd : (newOrder.map Task.id).Nodup)
    (hperm : (newOrder.map Task.id).Perm
      ((s.tasks.filter (fun t => !t.isCompleted)).map Task.id)) :
    (activeTasks (handleReorder now newOrder s).tasks).map Task.sortOrder =
      List.range newOrder.length := by
  rw [handleReorder_tasks]
  unfold activeTasks
  rw [List.filter_map]
  have hpred : ((fun t => !t.isCompleted) ∘
      (fun t => (newOrder.enum).foldl (reorderStep now) t)) =
      (fun t => !t.isCompleted) := by
    funext t
    simp [Function.comp, foldl_reorderStep_isCompleted]
  rw [hpred]
  have hpt : (s.tasks.filter (fun t => !t.isCompleted)).map
      (Task.sortOrder ∘ fun t => (newOrder.enum).foldl (reorderStep now) t) =
      (s.tasks.filter (fun t => !t.isCompleted)).map
        (fun t => idxOfId (newOrder.map Task.id) t.id) := by
    apply List.map_congr_left
    intro t ht
    have hmem : t.id ∈ newOrder.map Task.id :=
      hperm.mem_iff.mpr (List.mem_map_of_mem Task.id ht)
    have hlt : idxOfId (newOrder.map Task.id) t.id < newOrder.length := by
      have := idxOfId_lt_length hmem
      rwa [List.length_map] at this
    have hid : t.id = (newOrder.get ⟨idxOfId (newOrder.map Task.id) t.id, hlt⟩).id := by
      have hget := get_idxOfId hmem
      exact hget.symm.trans (List.get_map Task.id)
    show ((newOrder.enum).foldl (reorderStep now) t).sortOrder = _
    rw [show List.enum newOrder = List.enumFrom 0 newOrder from rfl]
    rw [foldl_reorderStep_enumFrom_hit now newOrder 0
      (idxOfId (newOrder.map Task.id) t.id) hlt t hnd hid]
    exact Nat.zero_add _
  refine List.eq_of_perm_of_sorted (r := fun a b : Nat => a ≤ b) ?_ ?_ ?_
  · refine (List.Perm.map Task.sortOrder (List.perm_insertionSort _ _)).trans ?_
    rw [List.map_map, hpt]
    have hx2 : (s.tasks.filter (fun t => !t.isCompleted)).map
        (fun t => idxOfId (newOrder.map Task.id) t.id) =
        ((s.tasks.filter (fun t => !t.isCompleted)).map Task.id).map
          (fun a => idxOfId (newOrder.map Task.id) a) := by
      rw [List.map_map]
      rfl
    rw [hx2]
    have hp3 := List.Perm.map (fun a => idxOfId (newOrder.map Task.id) a) hperm.symm
    rw [← List.length_map newOrder Task.id, ← map_idxOfId_self hnd]
    exact hp3
  · exact List.pairwise_map.mpr (List.sorted_insertionSort _ _)
  · exact List.pairwise_le_range newOrder.length

/-- C4, witness: the reorder contiguity applied at a concrete input — after
reordering [A, B, C] to [C, A, B] the active sortOrders are 0, 1, 2. -/
theorem claim_C4_witness :
    (activeTasks (handleReorder 9 exC7order exC7).tasks).map Task.sortOrder =
      List.range 3 :=
  claim_C4_reorder_contiguity 9 exC7order exC7 (by decide) (by decide)

/-! ## Claim C8 -/

/-- C8: the derived views are a strict bipartition. The active view holds
exactly the tasks with `isCompleted = false`, in ascending `sortOrder`; the
completed view holds exactly the tasks with `isCompleted = true`, in
descending `updatedAt`; and every task of the collection lies in exactly one
of the two views. -/
theorem claim_C8_partition (tasks : List Task) :
    (∀ t, t ∈ activeTasks tasks ↔ t ∈ tasks ∧ t.isCompleted = false)
    ∧ (∀ t, t ∈ completedTasks tasks ↔ t ∈ tasks ∧ t.isCompleted = true)
    ∧ List.Sorted (fun a b => a.sortOrder ≤ b.sortOrder) (activeTasks tasks)
    ∧ List.Sorted (fun a b => b.updatedAt ≤ a.updatedAt) (completedTasks tasks)
    ∧ ∀ t ∈ tasks, (t ∈ activeTasks tasks ∧ t ∉ completedTasks tasks) ∨
        (t ∈ completedTasks tasks ∧ t ∉ activeTasks tasks) := by
  have hact : ∀ t, t ∈ activeTasks tasks ↔ t ∈ tasks ∧ t.isCompleted = false := by
    intro t
    unfold activeTasks
    rw [(List.perm_insertionSort _ _).mem_iff, List.mem_filter]
    simp
  have hcomp : ∀ t, t ∈ completedTasks tasks ↔ t ∈ tasks ∧ t.isCompleted = true := by
    intro t
    unfold completedTasks
    rw [(List.perm_insertionSort _ _).mem_iff, List.mem_filter]
  refine ⟨hact, hcomp, List.sorted_insertionSort _ _, List.sorted_insertionSort _ _, ?_⟩
  intro t ht
  by_cases hc : t.isCompleted
  · refine Or.inr ⟨(hcomp t).mpr ⟨ht, hc⟩, ?_⟩
    intro hm
    have hfalse := ((hact t).mp hm).2
    rw [hc] at hfalse
    cases hfalse
  · refine Or.inl ⟨(hact t).mpr ⟨ht, by simpa using hc⟩, ?_⟩
    intro hm
    have htrue := ((hcomp t).mp hm).2
    exact hc htrue

/-- C8, witness: the bipartition applied to a concrete one-task collection. -/
theorem claim_C8_witness :
    ((⟨"a", "x", true, 0, 0, 0⟩ : Task) ∈ activeTasks [⟨"a", "x", true, 0, 0, 0⟩] ∧
      (⟨"a", "x", true, 0, 0, 0⟩ : Task) ∉ completedTasks [⟨"a", "x", true, 0, 0, 0⟩]) ∨
    ((⟨"a", "x", true, 0, 0, 0⟩ : Task) ∈ completedTasks [⟨"a", "x", true, 0, 0, 0⟩] ∧
      (⟨"a", "x", true, 0, 0, 0⟩ : Task) ∉ activeTasks [⟨"a", "x", true, 0, 0, 0⟩]) :=
  (claim_C8_partition [⟨"a", "x", true, 0, 0, 0⟩]).2.2.2.2 ⟨"a", "x", true, 0, 0, 0⟩
    (by decide)

end TodoApp
